import Mathlib

/-!
Verification of the md-python client library.

This file gives a shallow embedding, in Lean, of the parts of the
md-python repository relevant to its specification: the upload engine
(`src/md_python/uploads.py`), the experiments resource
(`src/md_python/resources/experiments.py`), the datasets resource
(`src/md_python/resources/datasets.py`), the health resource
(`src/md_python/resources/health.py`) and the metadata models
(`src/md_python/models/metadata.py`).

Python strings are modelled as `String`, optional values as `Option`,
raised exceptions as `Except String`, byte files as `List Nat`, and the
local file system as a partial map from paths to byte sizes.  Python's
`str.upper` / `str.lower` / `str.strip` are modelled character-wise so
that all definitions evaluate by kernel reduction.
-/

/-- Character-wise model of Python `str.upper` (ASCII). -/
def upperStr (s : String) : String := String.mk (s.data.map Char.toUpper)

/-- Character-wise model of Python `str.lower` (ASCII). -/
def lowerStr (s : String) : String := String.mk (s.data.map Char.toLower)

/-- Character-wise model of Python `str.strip` (whitespace on both ends). -/
def stripStr (s : String) : String :=
  String.mk (((s.data.dropWhile Char.isWhitespace).reverse.dropWhile Char.isWhitespace).reverse)

/-! ## Upload engine (`uploads.py`) -/

/-- `Uploads.should_use_multipart`: multipart iff the size reaches 30 MiB. -/
def should_use_multipart (file_size : Nat) : Bool :=
  decide (31457280 ≤ file_size)

/-- The local file system: maps a full path to the byte size of the file
stored there, `none` meaning the file does not exist. -/
def FileSys : Type := String → Option Nat

/-- Model of `os.path.join(dir, name)` for a directory path. -/
def path_join (dir name : String) : String := dir ++ "/" ++ name

/-- `Experiments._calculate_file_sizes`: byte size of every file, in order;
a missing file raises `FileNotFoundError`. -/
def calculate_file_sizes (fs : FileSys) : List String → String → Except String (List Nat)
  | [], _ => .ok []
  | filename :: rest, file_location =>
    match fs (path_join file_location filename) with
    | none => .error (String.append "File not found: " (path_join file_location filename))
    | some size =>
      match calculate_file_sizes fs rest file_location with
      | .error e => .error e
      | .ok sizes => .ok (size :: sizes)

/-- `Uploads.file_sizes_for_api`: `none` for files under the multipart
threshold, the actual size at or above it; missing file raises. -/
def file_sizes_for_api (fs : FileSys) : List String → String → Except String (List (Option Nat))
  | [], _ => .ok []
  | filename :: rest, file_location =>
    match fs (path_join file_location filename) with
    | none => .error (String.append "File not found: " (path_join file_location filename))
    | some size =>
      match file_sizes_for_api fs rest file_location with
      | .error e => .error e
      | .ok sizes =>
        .ok ((if should_use_multipart size then some size else none) :: sizes)

/-- A multipart upload descriptor entry: `{part_number, url}`. -/
structure UploadPart where
  part_number : Nat
  url : String
deriving DecidableEq, Repr

/-- The sort key used by `sorted(parts, key=lambda x: x["part_number"])`. -/
def partLE (a b : UploadPart) : Prop := a.part_number ≤ b.part_number

instance : DecidableRel partLE := fun a b => Nat.decLe a.part_number b.part_number

instance : IsTotal UploadPart partLE := ⟨fun a b => Nat.le_total a.part_number b.part_number⟩

instance : IsTrans UploadPart partLE := ⟨fun _ _ _ hab hbc => Nat.le_trans hab hbc⟩

/-- The chunk-reading loop of `Uploads.upload_multipart_file`: walks the
(sorted) part list, reading `base + remainder` bytes for the part whose
number equals `num_parts` and `base` bytes otherwise.  Returns, in upload
order, the pairs (part number, bytes PUT for that part).  `List.take`
models `f.read(k)` (which returns at most `k` bytes). -/
def multipart_go (num_parts base remainder : Nat) : List UploadPart → List Nat → List (Nat × List Nat)
  | [], _ => []
  | p :: ps, data =>
    let chunk_size := if p.part_number = num_parts then base + remainder else base
    (p.part_number, data.take chunk_size) ::
      multipart_go num_parts base remainder ps (data.drop chunk_size)

/-- `Uploads.upload_multipart_file`: size arithmetic
(`base_chunk_size = file_size // num_parts`,
`remainder = file_size % num_parts`), sorting by `part_number`, then the
sequential chunk reads.  The file is its byte content `content`. -/
def upload_multipart_file (parts : List UploadPart) (content : List Nat) : List (Nat × List Nat) :=
  multipart_go parts.length (content.length / parts.length) (content.length % parts.length)
    (List.insertionSort partLE parts) content

/-- Chunk size assigned to part number `k`. -/
def part_chunk_size (num_parts base remainder k : Nat) : Nat :=
  if k = num_parts then base + remainder else base

/-- Numeric variant of `multipart_go`, driven only by the part numbers. -/
def num_go (num_parts base remainder : Nat) : List Nat → List Nat → List (Nat × List Nat)
  | [], _ => []
  | k :: ks, data =>
    (k, data.take (part_chunk_size num_parts base remainder k)) ::
      num_go num_parts base remainder ks (data.drop (part_chunk_size num_parts base remainder k))

/-! ## Experiment creation (`resources/experiments.py`) -/

/-- The fields of the `Experiment` model consulted by creation-time
validation and payload building. -/
structure ExperimentRec where
  name : String
  source : String
  s3_bucket : Option String
  s3_prefix : Option String
  filenames : Option (List String)
  file_location : Option String
deriving DecidableEq, Repr

/-- Python truthiness of an `Optional[str]`: `None` and `""` are falsy. -/
def truthyStr : Option String → Bool
  | none => false
  | some s => decide (s ≠ "")

/-- Python truthiness of an `Optional[List[str]]`: `None` and `[]` are falsy. -/
def truthyList : Option (List String) → Bool
  | none => false
  | some l => decide (l ≠ [])

/-- `Experiments._validate_create_experiment`. -/
def validate_create_experiment (e : ExperimentRec) : Except String Unit :=
  if truthyStr e.file_location = false ∧ truthyStr e.s3_bucket = false then
    .error "Either file_location or s3_bucket must be provided to create an experiment"
  else if truthyStr e.file_location = true ∧ truthyList e.filenames = false then
    .error "filenames must be provided when using file_location"
  else .ok ()

/-- The `file_sizes` field of the creation payload built by
`Experiments.create` (lines 203-207): present exactly when
`file_location` and `filenames` are truthy, and then computed by
`self._calculate_file_sizes`. -/
def create_file_sizes_field (fs : FileSys) (e : ExperimentRec) : Except String (Option (List Nat)) :=
  if truthyStr e.file_location then
    if truthyList e.filenames then
      match calculate_file_sizes fs (e.filenames.getD []) (e.file_location.getD "") with
      | .error err => .error err
      | .ok sizes => .ok (some sizes)
    else .ok none
  else .ok none

/-! ## Polling state machine (`wait_until_complete`, both variants) -/

/-- Outcome of a polling loop: the record observed terminal-successful,
the raised failure (with the terminal status string), or the raised
`TimeoutError` (with the last-observed status). -/
inductive PollResult where
  | completed : Option String → PollResult
  | failed : String → PollResult
  | timedOut : Option String → PollResult
deriving DecidableEq, Repr

/-- What one loop iteration does with one polled observation: return,
raise, or keep polling (optionally updating the `last` tracker). -/
inductive StepRes where
  | ret : Option String → StepRes
  | err : String → StepRes
  | cont : Option (Option String) → StepRes
deriving DecidableEq, Repr

/-- The shared `while time.monotonic() < end` loop shape: one list entry
per fetch the timeout window allows; exhausting the list is the timeout. -/
def pollLoop {α : Type} (c : α → StepRes) : List α → Option String → PollResult
  | [], last => .timedOut last
  | x :: rest, last =>
    match c x with
    | .ret r => .completed r
    | .err s => .failed s
    | .cont upd => pollLoop c rest (upd.getD last)

/-- The `cont` update carried by a step, if any. -/
def contUpd : StepRes → Option (Option String)
  | .cont u => u
  | _ => none

/-- Loop body of `Experiments.wait_until_complete`: the polled
observation is the experiment's `status` (`None` possible).  `last` is
always set to the observed status; a falsy status keeps polling;
otherwise the UPPERCASED status is compared against the terminal sets. -/
def classifyExp (status : Option String) : StepRes :=
  match status with
  | none => .cont (some none)
  | some s =>
    if s = "" then .cont (some (some s))
    else if upperStr s = "COMPLETED" then .ret (some s)
    else if (["FAILED", "ERROR", "CANCELLED"] : List String).contains (upperStr s) then .err s
    else .cont (some (some s))

/-- Loop body of `Datasets.wait_until_complete`: the polled observation
is `none` when the dataset is absent from the listing (the `last`
tracker is then left unchanged), and `some state` when found; the raw
`state` string is compared exactly against the terminal sets. -/
def classifyDs (obs : Option (Option String)) : StepRes :=
  match obs with
  | none => .cont none
  | some st =>
    match st with
    | some s =>
      if s = "COMPLETED" then .ret (some s)
      else if (["FAILED", "ERROR", "CANCELLED"] : List String).contains s then .err s
      else .cont (some (some s))
    | none => .cont (some none)

/-- `Experiments.wait_until_complete`, over the sequence of polled statuses. -/
def experiment_wait (polls : List (Option String)) : PollResult :=
  pollLoop classifyExp polls none

/-- `Datasets.wait_until_complete`, over the sequence of polled observations. -/
def dataset_wait (polls : List (Option (Option String))) : PollResult :=
  pollLoop classifyDs polls none

/-- An experiment status observation on which the loop returns. -/
def isCompletedStatus (st : Option String) : Bool :=
  match st with
  | some s => decide (upperStr s = "COMPLETED")
  | none => false

/-- An experiment status observation on which the loop raises a failure. -/
def isFailedStatus (st : Option String) : Bool :=
  match st with
  | some s => (["FAILED", "ERROR", "CANCELLED"] : List String).contains (upperStr s)
  | none => false

/-- A dataset observation on which the loop returns. -/
def dsIsCompleted (obs : Option (Option String)) : Bool :=
  match obs with
  | some (some s) => decide (s = "COMPLETED")
  | _ => false

/-- A dataset observation on which the loop raises a failure. -/
def dsIsFailed (obs : Option (Option String)) : Bool :=
  match obs with
  | some (some s) => (["FAILED", "ERROR", "CANCELLED"] : List String).contains s
  | _ => false

/-- Non-terminal experiment observation. -/
def expNonTerminal (st : Option String) : Prop :=
  isCompletedStatus st = false ∧ isFailedStatus st = false

/-- Non-terminal dataset observation. -/
def dsNonTerminal (obs : Option (Option String)) : Prop :=
  dsIsCompleted obs = false ∧ dsIsFailed obs = false

/-! ## Datasets resource (`resources/datasets.py`) -/

/-- The fields of the `Dataset` model consulted by `find_initial_dataset`. -/
structure DatasetRec where
  id : Option String
  name : String
  type : Option String
  state : Option String
deriving DecidableEq, Repr

/-- The `intensity` filter of `Datasets.find_initial_dataset`. -/
def intensity_filter (datasets : List DatasetRec) : List DatasetRec :=
  datasets.filter (fun d => d.type == some "INTENSITY")

/-- The `by_name` filter of `Datasets.find_initial_dataset`. -/
def by_name_filter (datasets : List DatasetRec) (experiment_name : String) : List DatasetRec :=
  (intensity_filter datasets).filter (fun d => d.name == experiment_name)

/-- `Datasets.find_initial_dataset`, given the listed datasets and the
experiment's current name. -/
def find_initial_dataset (datasets : List DatasetRec) (experiment_name : String) : Except String DatasetRec :=
  if datasets.isEmpty then .error "No datasets found for experiment"
  else if (intensity_filter datasets).isEmpty then
    .error "No intensity dataset found for experiment"
  else
    match by_name_filter datasets experiment_name with
    | [d] => .ok d
    | [] => .error "No initial dataset found for experiment or name has been changed"
    | _ => .error "Multiple intensity datasets found for experiment"

/-! ## Health resource (`resources/health.py`) -/

/-- A decoded JSON object body, as a list of key/value pairs. -/
def JsonBody : Type := List (String × String)

/-- Everything the `try` block of `Health.check` can observe from the
transport: a response (status code plus the outcome of decoding its
body), or a raised network error. -/
inductive TransportResult where
  | response : Nat → Except String JsonBody → TransportResult
  | network_error : String → TransportResult

/-- Model of `requests.Response.raise_for_status`: an exception exactly
for 4xx and 5xx status codes. -/
def is_http_error_status (status : Nat) : Bool :=
  decide (400 ≤ status ∧ status < 600)

/-- `Health.check`: the whole body runs inside `try ... except Exception`,
so every raised exception is converted into the structured error dict. -/
def health_check (t : TransportResult) : JsonBody :=
  match t with
  | .network_error msg => [("status", "error"), ("message", msg)]
  | .response status body =>
    if is_http_error_status status then
      [("status", "error"), ("message", String.append "HTTPError for status " (toString status))]
    else
      match body with
      | .ok b => b
      | .error msg => [("status", "error"), ("message", msg)]

/-! ## Metadata models (`models/metadata.py`) -/

/-- The cells contributed by one data row to column `column`: one cell for
every header position holding `column` (missing trailing cells read as
`""`), mirroring the per-index append loop of `SampleMetadata.to_columns`. -/
def row_cells_for (column : String) : List String → Nat → List String → List String
  | [], _, _ => []
  | h :: hs, i, row =>
    (if h = column then [(row.get? i).getD ""] else []) ++ row_cells_for column hs (i + 1) row

/-- All values appended to `cols[column]` across the data rows. -/
def column_values (column : String) (headers : List String) : List (List String) → List String
  | [] => []
  | row :: rows => row_cells_for column headers 0 row ++ column_values column headers rows

/-- The `column` entry of `SampleMetadata.to_columns`: `none` when the
table is empty, the header row is empty, or the (stripped) headers do not
contain `column`. -/
def to_columns_col (data : List (List String)) (column : String) : Option (List String) :=
  match data with
  | [] => none
  | headerRow :: rows =>
    if headerRow.isEmpty then none
    else
      let headers := headerRow.map stripStr
      if headers.contains column then some (column_values column headers rows) else none

/-- The `seen`/`ordered` loop of `SampleMetadata.pairwise_vs_control`:
keeps the first occurrence of each truthy (non-empty) value. -/
def ordered_unique : List String → List String → List String
  | [], _ => []
  | v :: vs, seen =>
    if v ≠ "" ∧ v ∉ seen then v :: ordered_unique vs (v :: seen)
    else ordered_unique vs seen

/-- `SampleMetadata.pairwise_vs_control`. -/
def pairwise_vs_control (data : List (List String)) (column control : String) : Except String (List (List String)) :=
  match to_columns_col data column with
  | none => .error "Column not found in sample metadata"
  | some vals =>
    .ok (((ordered_unique vals []).filter (fun v => v ≠ control)).map (fun v => [v, control]))

/-- The distinct values of a list in first-seen order (no value dropped):
this follows the claim's words, for comparison with the code. -/
def first_seen_distinct : List String → List String
  | [] => []
  | v :: vs => v :: first_seen_distinct (vs.filter (fun x => x ≠ v))
termination_by l => l.length
decreasing_by
  simp only [List.length_cons]
  exact Nat.lt_succ_of_le (List.length_filter_le _ _)

/-- The distinct non-empty values of a list in first-seen order. -/
def first_seen_nonempty : List String → List String
  | [] => []
  | v :: vs =>
    if v = "" then first_seen_nonempty vs
    else v :: first_seen_nonempty (vs.filter (fun x => x ≠ v))
termination_by l => l.length
decreasing_by
  all_goals simp only [List.length_cons]
  · exact Nat.lt_succ_self _
  · exact Nat.lt_succ_of_le (List.length_filter_le _ _)

/-- The pair list the claim describes: every distinct value of the column
in first-seen order, minus the control, paired with the control. -/
def claimed_pairwise (vals : List String) (control : String) : List (List String) :=
  ((first_seen_distinct vals).filter (fun v => v ≠ control)).map (fun v => [v, control])

/-- The canonical required header of `ExperimentDesign._normalize_rows`. -/
def canonical_header : List String := ["filename", "sample_name", "condition"]

/-- The synonym table of `ExperimentDesign._normalize_rows`
(`synonyms.get(h, h)`). -/
def synonym (h : String) : String :=
  if h = "filename" then "filename"
  else if h = "file" then "filename"
  else if h = "sample_name" then "sample_name"
  else if h = "sample" then "sample_name"
  else if h = "condition" then "condition"
  else if h = "group" then "condition"
  else h

/-- `ExperimentDesign._normalize_rows`. -/
def normalize_rows (raw : List (List String)) : Except String (List (List String)) :=
  match raw with
  | [] => .error "experiment_design is empty"
  | headerRow :: rows =>
    let normalized_header := headerRow.map (fun h => synonym (lowerStr (stripStr h)))
    match normalized_header.findIdx? (fun h => h = "filename"),
          normalized_header.findIdx? (fun h => h = "sample_name"),
          normalized_header.findIdx? (fun h => h = "condition") with
    | some idx_filename, some idx_sample, some idx_condition =>
      .ok (canonical_header ::
        rows.map (fun row =>
          [(row.get? idx_filename).getD "",
           (row.get? idx_sample).getD "",
           (row.get? idx_condition).getD ""]))
    | _, _, _ => .error "Missing required columns"

/-! ## Theorems -/

/-- C9: for all file sizes `s`, the transfer-mode decision selects
multipart iff `s >= 31457280`; in particular multipart at exactly
31457280 and single at 31457279. -/
theorem should_use_multipart_threshold :
    (∀ s : Nat, should_use_multipart s = true ↔ 31457280 ≤ s) ∧
    should_use_multipart 31457280 = true ∧ should_use_multipart 31457279 = false := by
  refine ⟨fun s => ?_, by decide, by decide⟩
  simp [should_use_multipart]

/-- C1: the claim says the `file_sizes` list placed in the creation
payload holds the absent marker for files under the multipart threshold.
The payload is built from `Experiments._calculate_file_sizes`, which
returns the actual size for every file: for two existing files of 1024
and 2048 bytes (both under the threshold) the payload field is
`[1024, 2048]`, whereas the behaviour the claim describes (implemented
by `Uploads.file_sizes_for_api`, and asserted by the repository's own
tests) is `[none, none]`. -/
theorem create_file_sizes_ignores_threshold :
    create_file_sizes_field
        (fun p => if p = "/data/file1.txt" then some 1024
          else if p = "/data/file2.txt" then some 2048 else none)
        { name := "Exp", source := "src", s3_bucket := none, s3_prefix := none,
          filenames := some ["file1.txt", "file2.txt"], file_location := some "/data" }
      = .ok (some [1024, 2048]) ∧
    file_sizes_for_api
        (fun p => if p = "/data/file1.txt" then some 1024
          else if p = "/data/file2.txt" then some 2048 else none)
        ["file1.txt", "file2.txt"] "/data"
      = .ok [none, none] ∧
    1024 < 31457280 ∧ 2048 < 31457280 := by
  refine ⟨rfl, rfl, by decide, by decide⟩

/-- C5: experiment-creation validation fails iff (neither `s3_bucket` nor
`file_location` is truthy) or (`file_location` truthy and `filenames`
empty); `s3_bucket` alone passes, and both locations together are
tolerated. -/
theorem validate_create_experiment_iff :
    ∀ e : ExperimentRec,
      ((∃ msg, validate_create_experiment e = .error msg) ↔
        ((truthyStr e.s3_bucket = false ∧ truthyStr e.file_location = false) ∨
         (truthyStr e.file_location = true ∧ truthyList e.filenames = false))) ∧
      (truthyStr e.s3_bucket = true → truthyStr e.file_location = false →
        validate_create_experiment e = .ok ()) ∧
      (truthyStr e.s3_bucket = true → truthyStr e.file_location = true →
        truthyList e.filenames = true → validate_create_experiment e = .ok ()) := by
  intro e
  cases hb : truthyStr e.s3_bucket <;> cases hf : truthyStr e.file_location <;>
    cases hn : truthyList e.filenames <;>
      simp [validate_create_experiment, hb, hf, hn]

/-- C5 witness: an experiment with only `s3_bucket` set passes validation. -/
theorem validate_create_experiment_iff_witness :
    validate_create_experiment
        { name := "Exp", source := "src", s3_bucket := some "bucket", s3_prefix := none,
          filenames := none, file_location := none }
      = .ok () :=
  (validate_create_experiment_iff
      { name := "Exp", source := "src", s3_bucket := some "bucket", s3_prefix := none,
        filenames := none, file_location := none }).2.1 (by decide) (by decide)

/-- C6: the health check is total over every transport outcome: it
returns the decoded body when the status is not an HTTP-error status and
decoding succeeds, and otherwise returns the structured
`status=error/message` dictionary; it never raises. -/
theorem health_check_never_raises :
    ∀ t : TransportResult,
      (∃ status body, t = .response status (.ok body) ∧ is_http_error_status status = false ∧
        health_check t = body) ∨
      (∃ msg, health_check t = [("status", "error"), ("message", msg)]) := by
  intro t
  cases t with
  | network_error msg => exact Or.inr ⟨msg, rfl⟩
  | response status body =>
    cases hs : is_http_error_status status with
    | true =>
      exact Or.inr ⟨String.append "HTTPError for status " (toString status),
        by simp [health_check, hs]⟩
    | false =>
      cases body with
      | ok b => exact Or.inl ⟨status, b, rfl, hs, by simp [health_check, hs]⟩
      | error msg => exact Or.inr ⟨msg, by simp [health_check, hs]⟩

/-- C4: `find_initial_dataset` errors when no listed dataset has type
INTENSITY; errors when the INTENSITY datasets matching the experiment's
name number zero or more than one; and returns a dataset iff it is the
unique INTENSITY dataset named exactly like the experiment. -/
theorem find_initial_dataset_spec (datasets : List DatasetRec) (nm : String) :
    ((∀ d ∈ datasets, ¬ d.type = some "INTENSITY") →
      ∃ e, find_initial_dataset datasets nm = .error e) ∧
    ((by_name_filter datasets nm).length ≠ 1 →
      ∃ e, find_initial_dataset datasets nm = .error e) ∧
    (∀ d, find_initial_dataset datasets nm = .ok d ↔ by_name_filter datasets nm = [d]) := by
  refine ⟨?_, ?_, ?_⟩
  · intro hno
    by_cases hD : datasets.isEmpty
    · exact ⟨"No datasets found for experiment", by simp [find_initial_dataset, hD]⟩
    · have hI : intensity_filter datasets = [] := by
        refine List.filter_eq_nil_iff.mpr ?_
        intro d hd
        simpa using hno d hd
      refine ⟨"No intensity dataset found for experiment", ?_⟩
      simp [find_initial_dataset, hD, hI]
  · intro hlen
    by_cases hD : datasets.isEmpty
    · exact ⟨"No datasets found for experiment", by simp [find_initial_dataset, hD]⟩
    · by_cases hI : (intensity_filter datasets).isEmpty
      · exact ⟨"No intensity dataset found for experiment",
          by simp [find_initial_dataset, hD, hI]⟩
      · rcases hbn : by_name_filter datasets nm with _ | ⟨d1, _ | ⟨d2, tl⟩⟩
        · exact ⟨"No initial dataset found for experiment or name has been changed",
            by simp [find_initial_dataset, hD, hI, hbn]⟩
        · exact absurd (by rw [hbn]; rfl) hlen
        · exact ⟨"Multiple intensity datasets found for experiment",
            by simp [find_initial_dataset, hD, hI, hbn]⟩
  · intro d
    constructor
    · intro h
      by_cases hD : datasets.isEmpty
      · simp [find_initial_dataset, hD] at h
      · by_cases hI : (intensity_filter datasets).isEmpty
        · simp [find_initial_dataset, hD, hI] at h
        · rcases hbn : by_name_filter datasets nm with _ | ⟨d1, _ | ⟨d2, tl⟩⟩ <;>
            simp [find_initial_dataset, hD, hI, hbn] at h
          rw [h]
    · intro hbn
      have hd_int : d ∈ intensity_filter datasets := by
        have hmem : d ∈ by_name_filter datasets nm := by
          rw [hbn]; exact List.mem_singleton_self d
        exact List.mem_of_mem_filter hmem
      have hd_ds : d ∈ datasets := List.mem_of_mem_filter hd_int
      have hD : datasets.isEmpty = false := by
        cases datasets with
        | nil => cases hd_ds
        | cons a l => rfl
      have hI : (intensity_filter datasets).isEmpty = false := by
        cases hfi : intensity_filter datasets with
        | nil => rw [hfi] at hd_int; cases hd_int
        | cons a l => rfl
      simp [find_initial_dataset, hD, hI, hbn]

/-- C4 witness: with one INTENSITY dataset named like the experiment, one
non-INTENSITY dataset of the same name and one INTENSITY dataset with a
different name, the unique match is returned; with no INTENSITY dataset
an error results. -/
theorem find_initial_dataset_spec_witness :
    find_initial_dataset
        [{ id := some "d1", name := "X", type := some "INTENSITY", state := some "COMPLETED" },
         { id := some "d2", name := "X", type := some "OTHER", state := none },
         { id := some "d3", name := "Y", type := some "INTENSITY", state := none }] "X"
      = .ok { id := some "d1", name := "X", type := some "INTENSITY", state := some "COMPLETED" } ∧
    ∃ e, find_initial_dataset
        [{ id := some "d9", name := "X", type := some "OTHER", state := none }] "X" = .error e :=
  ⟨((find_initial_dataset_spec _ "X").2.2 _).mpr (by decide),
   (find_initial_dataset_spec _ "X").1 (by decide)⟩

/-- C8: experiment-design normalization is idempotent: whenever
`_normalize_rows` succeeds, its output is a fixed point. -/
theorem normalize_rows_idempotent (raw out : List (List String)) (h : normalize_rows raw = .ok out) :
    normalize_rows out = .ok out := by
  cases raw with
  | nil => simp [normalize_rows] at h
  | cons headerRow rows =>
    rw [normalize_rows] at h
    split at h
    case _ idx_filename idx_sample idx_condition hf hs hc =>
      have hout : out = canonical_header ::
          rows.map (fun row =>
            [(row.get? idx_filename).getD "",
             (row.get? idx_sample).getD "",
             (row.get? idx_condition).getD ""]) := by
        injection h with h1
        exact h1.symm
      subst hout
      have hmap : canonical_header.map (fun h => synonym (lowerStr (stripStr h)))
          = canonical_header := by decide
      have h1 : canonical_header.findIdx? (fun h => h = "filename") = some 0 := by decide
      have h2 : canonical_header.findIdx? (fun h => h = "sample_name") = some 1 := by decide
      have h3 : canonical_header.findIdx? (fun h => h = "condition") = some 2 := by decide
      rw [normalize_rows]
      simp only [hmap, h1, h2, h3, List.map_map]
      rfl
    case _ =>
      simp at h

theorem getLast?_cons_getD {β : Type} (a : β) (l : List β) (d : β) :
    ((a :: l).getLast?).getD d = (l.getLast?).getD a := by
  cases h : l.getLast? with
  | none => simp [List.getLast?_cons, h]
  | some b => simp [List.getLast?_cons, h]

theorem pollLoop_completed_iff {α : Type} (c : α → StepRes) (polls : List α)
    (last : Option String) (r : Option String) :
    pollLoop c polls last = .completed r ↔
      ∃ pre x post, polls = pre ++ x :: post ∧ (∀ y ∈ pre, ∃ u, c y = .cont u) ∧ c x = .ret r := by
  induction polls generalizing last with
  | nil =>
    simp only [pollLoop]
    constructor
    · intro h; exact absurd h (by simp)
    · rintro ⟨pre, x, post, hdec, -, -⟩
      exact absurd hdec (by simp)
  | cons a rest ih =>
    cases hc : c a with
    | ret r1 =>
      simp only [pollLoop, hc]
      constructor
      · intro h
        injection h with hr
        exact ⟨[], a, rest, by simp, by simp, by rw [hc, hr]⟩
      · rintro ⟨pre, x, post, hdec, hpre, hx⟩
        cases pre with
        | nil =>
          simp only [List.nil_append, List.cons.injEq] at hdec
          obtain ⟨rfl, rfl⟩ := hdec
          rw [hc] at hx
          injection hx with hx1
          rw [hx1]
        | cons p pretail =>
          simp only [List.cons_append, List.cons.injEq] at hdec
          obtain ⟨rfl, -⟩ := hdec
          obtain ⟨u, hu⟩ := hpre a (by simp)
          rw [hc] at hu
          cases hu
    | err s1 =>
      simp only [pollLoop, hc]
      constructor
      · intro h; cases h
      · rintro ⟨pre, x, post, hdec, hpre, hx⟩
        cases pre with
        | nil =>
          simp only [List.nil_append, List.cons.injEq] at hdec
          obtain ⟨rfl, rfl⟩ := hdec
          rw [hc] at hx
          cases hx
        | cons p pretail =>
          simp only [List.cons_append, List.cons.injEq] at hdec
          obtain ⟨rfl, -⟩ := hdec
          obtain ⟨u, hu⟩ := hpre a (by simp)
          rw [hc] at hu
          cases hu
    | cont u =>
      simp only [pollLoop, hc]
      rw [ih]
      constructor
      · rintro ⟨pre, x, post, hdec, hpre, hx⟩
        refine ⟨a :: pre, x, post, by rw [hdec]; rfl, ?_, hx⟩
        intro y hy
        rcases List.mem_cons.mp hy with h1 | h2
        · exact ⟨u, h1 ▸ hc⟩
        · exact hpre y h2
      · rintro ⟨pre, x, post, hdec, hpre, hx⟩
        cases pre with
        | nil =>
          simp only [List.nil_append, List.cons.injEq] at hdec
          obtain ⟨rfl, rfl⟩ := hdec
          rw [hc] at hx
          cases hx
        | cons p pretail =>
          simp only [List.cons_append, List.cons.injEq] at hdec
          obtain ⟨rfl, hrest⟩ := hdec
          exact ⟨pretail, x, post, hrest,
            fun y hy => hpre y (List.mem_cons_of_mem _ hy), hx⟩

theorem pollLoop_failed_iff {α : Type} (c : α → StepRes) (polls : List α)
    (last : Option String) (e : String) :
    pollLoop c polls last = .failed e ↔
      ∃ pre x post, polls = pre ++ x :: post ∧ (∀ y ∈ pre, ∃ u, c y = .cont u) ∧ c x = .err e := by
  induction polls generalizing last with
  | nil =>
    simp only [pollLoop]
    constructor
    · intro h; exact absurd h (by simp)
    · rintro ⟨pre, x, post, hdec, -, -⟩
      exact absurd hdec (by simp)
  | cons a rest ih =>
    cases hc : c a with
    | ret r1 =>
      simp only [pollLoop, hc]
      constructor
      · intro h; cases h
      · rintro ⟨pre, x, post, hdec, hpre, hx⟩
        cases pre with
        | nil =>
          simp only [List.nil_append, List.cons.injEq] at hdec
          obtain ⟨rfl, rfl⟩ := hdec
          rw [hc] at hx
          cases hx
        | cons p pretail =>
          simp only [List.cons_append, List.cons.injEq] at hdec
          obtain ⟨rfl, -⟩ := hdec
          obtain ⟨u, hu⟩ := hpre a (by simp)
          rw [hc] at hu
          cases hu
    | err s1 =>
      simp only [pollLoop, hc]
      constructor
      · intro h
        injection h with hs
        exact ⟨[], a, rest, by simp, by simp, by rw [hc, hs]⟩
      · rintro ⟨pre, x, post, hdec, hpre, hx⟩
        cases pre with
        | nil =>
          simp only [List.nil_append, List.cons.injEq] at hdec
          obtain ⟨rfl, rfl⟩ := hdec
          rw [hc] at hx
          injection hx with hx1
          rw [hx1]
        | cons p pretail =>
          simp only [List.cons_append, List.cons.injEq] at hdec
          obtain ⟨rfl, -⟩ := hdec
          obtain ⟨u, hu⟩ := hpre a (by simp)
          rw [hc] at hu
          cases hu
    | cont u =>
      simp only [pollLoop, hc]
      rw [ih]
      constructor
      · rintro ⟨pre, x, post, hdec, hpre, hx⟩
        refine ⟨a :: pre, x, post, by rw [hdec]; rfl, ?_, hx⟩
        intro y hy
        rcases List.mem_cons.mp hy with h1 | h2
        · exact ⟨u, h1 ▸ hc⟩
        · exact hpre y h2
      · rintro ⟨pre, x, post, hdec, hpre, hx⟩
        cases pre with
        | nil =>
          simp only [List.nil_append, List.cons.injEq] at hdec
          obtain ⟨rfl, rfl⟩ := hdec
          rw [hc] at hx
          cases hx
        | cons p pretail =>
          simp only [List.cons_append, List.cons.injEq] at hdec
          obtain ⟨rfl, hrest⟩ := hdec
          exact ⟨pretail, x, post, hrest,
            fun y hy => hpre y (List.mem_cons_of_mem _ hy), hx⟩

theorem pollLoop_timedOut_iff {α : Type} (c : α → StepRes) (polls : List α)
    (last : Option String) (l : Option String) :
    pollLoop c polls last = .timedOut l ↔
      (∀ y ∈ polls, ∃ u, c y = .cont u) ∧
      l = polls.foldl (fun acc y => (contUpd (c y)).getD acc) last := by
  induction polls generalizing last with
  | nil =>
    simp only [pollLoop, List.foldl_nil]
    constructor
    · intro h
      injection h with h1
      exact ⟨by simp, h1.symm⟩
    · rintro ⟨-, rfl⟩
      rfl
  | cons a rest ih =>
    cases hc : c a with
    | ret r1 =>
      simp only [pollLoop, hc]
      constructor
      · intro h; cases h
      · rintro ⟨hall, -⟩
        obtain ⟨u, hu⟩ := hall a (by simp)
        rw [hc] at hu
        cases hu
    | err s1 =>
      simp only [pollLoop, hc]
      constructor
      · intro h; cases h
      · rintro ⟨hall, -⟩
        obtain ⟨u, hu⟩ := hall a (by simp)
        rw [hc] at hu
        cases hu
    | cont u =>
      simp only [pollLoop, hc, List.foldl_cons]
      rw [ih]
      simp only [contUpd]
      constructor
      · rintro ⟨hall, hl⟩
        refine ⟨?_, hl⟩
        intro y hy
        rcases List.mem_cons.mp hy with h1 | h2
        · exact ⟨u, h1 ▸ hc⟩
        · exact hall y h2
      · rintro ⟨hall, hl⟩
        exact ⟨fun y hy => hall y (List.mem_cons_of_mem _ hy), hl⟩

theorem classifyExp_cont_shape (st : Option String) (u : Option (Option String))
    (h : classifyExp st = .cont u) : u = some st := by
  cases st with
  | none =>
    injection h with h1
    exact h1.symm
  | some s =>
    simp only [classifyExp] at h
    split_ifs at h <;> first
      | (injection h with h1; exact h1.symm)
      | cases h

theorem classifyDs_cont_shape (obs : Option (Option String)) (u : Option (Option String))
    (h : classifyDs obs = .cont u) : u = obs := by
  cases obs with
  | none =>
    injection h with h1
    exact h1.symm
  | some st =>
    cases st with
    | none =>
      injection h with h1
      exact h1.symm
    | some s =>
      simp only [classifyDs] at h
      split_ifs at h <;> first
        | (injection h with h1; exact h1.symm)
        | cases h

theorem foldl_contUpd_exp (polls : List (Option String)) (a : Option String)
    (h : ∀ y ∈ polls, ∃ u, classifyExp y = .cont u) :
    polls.foldl (fun acc y => (contUpd (classifyExp y)).getD acc) a
      = (polls.getLast?).getD a := by
  induction polls generalizing a with
  | nil => rfl
  | cons y rest ih =>
    have hy : contUpd (classifyExp y) = some y := by
      obtain ⟨u, hu⟩ := h y (by simp)
      rw [hu, classifyExp_cont_shape y u hu]
      rfl
    rw [List.foldl_cons, hy, getLast?_cons_getD]
    exact ih y (fun z hz => h z (List.mem_cons_of_mem _ hz))

theorem foldl_contUpd_ds (polls : List (Option (Option String))) (a : Option String)
    (h : ∀ y ∈ polls, ∃ u, classifyDs y = .cont u) :
    polls.foldl (fun acc y => (contUpd (classifyDs y)).getD acc) a
      = (((polls.filterMap id).getLast?)).getD a := by
  induction polls generalizing a with
  | nil => rfl
  | cons y rest ih =>
    have hy : contUpd (classifyDs y) = y := by
      obtain ⟨u, hu⟩ := h y (by simp)
      rw [hu, classifyDs_cont_shape y u hu]
      rfl
    have htail : ∀ z ∈ rest, ∃ u, classifyDs z = .cont u :=
      fun z hz => h z (List.mem_cons_of_mem _ hz)
    cases y with
    | none =>
      rw [List.foldl_cons, hy]
      have hfm : List.filterMap id ((none : Option (Option String)) :: rest)
          = List.filterMap id rest := by simp
      rw [hfm]
      exact ih a htail
    | some st =>
      rw [List.foldl_cons, hy]
      have hfm : List.filterMap id (some st :: rest) = st :: List.filterMap id rest := by simp
      rw [hfm, getLast?_cons_getD]
      exact ih st htail

theorem classifyExp_ret_iff (st : Option String) (r : Option String) :
    classifyExp st = .ret r ↔ (isCompletedStatus st = true ∧ r = st) := by
  cases st with
  | none =>
    constructor
    · intro h; cases h
    · rintro ⟨h1, -⟩; cases h1
  | some s =>
    simp only [classifyExp, isCompletedStatus, decide_eq_true_eq]
    split_ifs with h1 h2 h3
    · subst h1
      constructor
      · intro h; cases h
      · rintro ⟨hC, -⟩; exact absurd hC (by decide)
    · constructor
      · intro h
        injection h with h'
        exact ⟨h2, h'.symm⟩
      · rintro ⟨-, rfl⟩; rfl
    · constructor
      · intro h; cases h
      · rintro ⟨hC, -⟩; exact h2 hC
    · constructor
      · intro h; cases h
      · rintro ⟨hC, -⟩; exact h2 hC

theorem classifyExp_err_iff (st : Option String) (e : String) :
    classifyExp st = .err e ↔ (isFailedStatus st = true ∧ st = some e) := by
  cases st with
  | none =>
    constructor
    · intro h; cases h
    · rintro ⟨h1, -⟩; cases h1
  | some s =>
    simp only [classifyExp, isFailedStatus]
    split_ifs with h1 h2 h3
    · subst h1
      constructor
      · intro h; cases h
      · rintro ⟨hF, -⟩; exact absurd hF (by decide)
    · constructor
      · intro h; cases h
      · rintro ⟨hF, -⟩
        rw [h2] at hF
        exact absurd hF (by decide)
    · constructor
      · intro h
        injection h with h'
        exact ⟨h3, by rw [h']⟩
      · rintro ⟨-, hse⟩
        injection hse with hse'
        rw [hse']
    · constructor
      · intro h; cases h
      · rintro ⟨hF, -⟩
        exact h3 hF

theorem classifyExp_cont_iff (st : Option String) :
    (∃ u, classifyExp st = .cont u) ↔ expNonTerminal st := by
  cases st with
  | none =>
    constructor
    · intro _; exact ⟨rfl, rfl⟩
    · intro _; exact ⟨some none, rfl⟩
  | some s =>
    simp only [classifyExp, expNonTerminal, isCompletedStatus, isFailedStatus,
      decide_eq_true_eq]
    split_ifs with h1 h2 h3
    · subst h1
      constructor
      · intro _; exact ⟨by decide, by decide⟩
      · intro _; exact ⟨some (some ""), rfl⟩
    · constructor
      · rintro ⟨u, hu⟩; cases hu
      · rintro ⟨hC, -⟩
        rw [h2] at hC
        simp at hC
    · constructor
      · rintro ⟨u, hu⟩; cases hu
      · rintro ⟨-, hF⟩
        rw [h3] at hF
        cases hF
    · constructor
      · intro _
        refine ⟨by simpa using h2, ?_⟩
        simpa using h3
      · intro _; exact ⟨some (some s), rfl⟩

theorem classifyDs_ret_iff (obs : Option (Option String)) (r : Option String) :
    classifyDs obs = .ret r ↔ (dsIsCompleted obs = true ∧ r = some "COMPLETED") := by
  cases obs with
  | none =>
    constructor
    · intro h; cases h
    · rintro ⟨h1, -⟩; cases h1
  | some st =>
    cases st with
    | none =>
      constructor
      · intro h; cases h
      · rintro ⟨h1, -⟩; cases h1
    | some s =>
      simp only [classifyDs, dsIsCompleted, decide_eq_true_eq]
      split_ifs with h1 h2
      · subst h1
        constructor
        · intro h
          injection h with h'
          exact ⟨rfl, h'.symm⟩
        · rintro ⟨-, rfl⟩; rfl
      · constructor
        · intro h; cases h
        · rintro ⟨hC, -⟩; exact h1 hC
      · constructor
        · intro h; cases h
        · rintro ⟨hC, -⟩; exact h1 hC

theorem classifyDs_err_iff (obs : Option (Option String)) (e : String) :
    classifyDs obs = .err e ↔ (dsIsFailed obs = true ∧ obs = some (some e)) := by
  cases obs with
  | none =>
    constructor
    · intro h; cases h
    · rintro ⟨h1, -⟩; cases h1
  | some st =>
    cases st with
    | none =>
      constructor
      · intro h; cases h
      · rintro ⟨h1, -⟩; cases h1
    | some s =>
      simp only [classifyDs, dsIsFailed]
      split_ifs with h1 h2
      · subst h1
        constructor
        · intro h; cases h
        · rintro ⟨hF, -⟩; exact absurd hF (by decide)
      · constructor
        · intro h
          injection h with h'
          exact ⟨h2, by rw [h']⟩
        · rintro ⟨-, hse⟩
          injection hse with hse'
          injection hse' with hse''
          rw [hse'']
      · constructor
        · intro h; cases h
        · rintro ⟨hF, -⟩
          exact h2 hF

theorem classifyDs_cont_iff (obs : Option (Option String)) :
    (∃ u, classifyDs obs = .cont u) ↔ dsNonTerminal obs := by
  cases obs with
  | none =>
    constructor
    · intro _; exact ⟨rfl, rfl⟩
    · intro _; exact ⟨none, rfl⟩
  | some st =>
    cases st with
    | none =>
      constructor
      · intro _; exact ⟨rfl, rfl⟩
      · intro _; exact ⟨some none, rfl⟩
    | some s =>
      simp only [classifyDs, dsNonTerminal, dsIsCompleted, dsIsFailed, decide_eq_true_eq]
      split_ifs with h1 h2
      · constructor
        · rintro ⟨u, hu⟩; cases hu
        · rintro ⟨hC, -⟩
          rw [h1] at hC
          simp at hC
      · constructor
        · rintro ⟨u, hu⟩; cases hu
        · rintro ⟨-, hF⟩
          rw [h2] at hF
          cases hF
      · constructor
        · intro _
          refine ⟨by simpa using h1, ?_⟩
          simpa using h2
        · intro _; exact ⟨some (some s), rfl⟩

/-- C3 counterexample: on the polled status "completed" (lowercase) the
experiment loop returns the record, although the observed status string
is not `COMPLETED`: terminal detection for experiments is not the exact
string comparison the claim states. -/
theorem wait_until_complete_case_counterexample :
    experiment_wait [some "completed"] = .completed (some "completed") ∧
    "completed" ≠ "COMPLETED" := by
  exact ⟨by decide, by decide⟩

/-- C3 (amended): for every sequence of polled statuses, each variant of
`wait_until_complete` returns the polled record exactly when the first
terminal observation is COMPLETED under that variant's comparison — the
dataset loop compares the raw state string exactly, the experiment loop
compares the UPPERCASED status — raises a failure carrying the terminal
status exactly when that first terminal observation is in
{FAILED, ERROR, CANCELLED} (same per-variant normalization), keeps
polling on any other observation, and times out reporting the
last-observed status when no terminal observation occurs. -/
theorem wait_until_complete_first_terminal :
    (∀ (polls : List (Option String)) (r : Option String),
      experiment_wait polls = .completed r ↔
        ∃ pre x post, polls = pre ++ x :: post ∧ (∀ y ∈ pre, expNonTerminal y) ∧
          isCompletedStatus x = true ∧ r = x) ∧
    (∀ (polls : List (Option String)) (e : String),
      experiment_wait polls = .failed e ↔
        ∃ pre post, polls = pre ++ (some e) :: post ∧ (∀ y ∈ pre, expNonTerminal y) ∧
          isFailedStatus (some e) = true) ∧
    (∀ (polls : List (Option String)) (l : Option String),
      experiment_wait polls = .timedOut l ↔
        (∀ y ∈ polls, expNonTerminal y) ∧ l = (polls.getLast?).getD none) ∧
    (∀ (polls : List (Option (Option String))) (r : Option String),
      dataset_wait polls = .completed r ↔
        ∃ pre x post, polls = pre ++ x :: post ∧ (∀ y ∈ pre, dsNonTerminal y) ∧
          dsIsCompleted x = true ∧ r = some "COMPLETED") ∧
    (∀ (polls : List (Option (Option String))) (e : String),
      dataset_wait polls = .failed e ↔
        ∃ pre post, polls = pre ++ (some (some e)) :: post ∧ (∀ y ∈ pre, dsNonTerminal y) ∧
          dsIsFailed (some (some e)) = true) ∧
    (∀ (polls : List (Option (Option String))) (l : Option String),
      dataset_wait polls = .timedOut l ↔
        (∀ y ∈ polls, dsNonTerminal y) ∧ l = ((polls.filterMap id).getLast?).getD none) := by
  refine ⟨?_, ?_, ?_, ?_, ?_, ?_⟩
  · intro polls r
    rw [experiment_wait, pollLoop_completed_iff]
    constructor
    · rintro ⟨pre, x, post, hdec, hpre, hx⟩
      rw [classifyExp_ret_iff] at hx
      exact ⟨pre, x, post, hdec,
        fun y hy => (classifyExp_cont_iff y).mp (hpre y hy), hx.1, hx.2⟩
    · rintro ⟨pre, x, post, hdec, hpre, hC, hr⟩
      exact ⟨pre, x, post, hdec,
        fun y hy => (classifyExp_cont_iff y).mpr (hpre y hy),
        (classifyExp_ret_iff x r).mpr ⟨hC, hr⟩⟩
  · intro polls e
    rw [experiment_wait, pollLoop_failed_iff]
    constructor
    · rintro ⟨pre, x, post, hdec, hpre, hx⟩
      rw [classifyExp_err_iff] at hx
      obtain ⟨hF, hxe⟩ := hx
      subst hxe
      exact ⟨pre, post, hdec,
        fun y hy => (classifyExp_cont_iff y).mp (hpre y hy), hF⟩
    · rintro ⟨pre, post, hdec, hpre, hF⟩
      exact ⟨pre, some e, post, hdec,
        fun y hy => (classifyExp_cont_iff y).mpr (hpre y hy),
        (classifyExp_err_iff (some e) e).mpr ⟨hF, rfl⟩⟩
  · intro polls l
    rw [experiment_wait, pollLoop_timedOut_iff]
    constructor
    · rintro ⟨hall, hl⟩
      refine ⟨fun y hy => (classifyExp_cont_iff y).mp (hall y hy), ?_⟩
      rw [hl, foldl_contUpd_exp polls none hall]
    · rintro ⟨hall, hl⟩
      have hall2 : ∀ y ∈ polls, ∃ u, classifyExp y = .cont u :=
        fun y hy => (classifyExp_cont_iff y).mpr (hall y hy)
      exact ⟨hall2, by rw [hl, foldl_contUpd_exp polls none hall2]⟩
  · intro polls r
    rw [dataset_wait, pollLoop_completed_iff]
    constructor
    · rintro ⟨pre, x, post, hdec, hpre, hx⟩
      rw [classifyDs_ret_iff] at hx
      exact ⟨pre, x, post, hdec,
        fun y hy => (classifyDs_cont_iff y).mp (hpre y hy), hx.1, hx.2⟩
    · rintro ⟨pre, x, post, hdec, hpre, hC, hr⟩
      exact ⟨pre, x, post, hdec,
        fun y hy => (classifyDs_cont_iff y).mpr (hpre y hy),
        (classifyDs_ret_iff x r).mpr ⟨hC, hr⟩⟩
  · intro polls e
    rw [dataset_wait, pollLoop_failed_iff]
    constructor
    · rintro ⟨pre, x, post, hdec, hpre, hx⟩
      rw [classifyDs_err_iff] at hx
      obtain ⟨hF, hxe⟩ := hx
      subst hxe
      exact ⟨pre, post, hdec,
        fun y hy => (classifyDs_cont_iff y).mp (hpre y hy), hF⟩
    · rintro ⟨pre, post, hdec, hpre, hF⟩
      exact ⟨pre, some (some e), post, hdec,
        fun y hy => (classifyDs_cont_iff y).mpr (hpre y hy),
        (classifyDs_err_iff (some (some e)) e).mpr ⟨hF, rfl⟩⟩
  · intro polls l
    rw [dataset_wait, pollLoop_timedOut_iff]
    constructor
    · rintro ⟨hall, hl⟩
      refine ⟨fun y hy => (classifyDs_cont_iff y).mp (hall y hy), ?_⟩
      rw [hl, foldl_contUpd_ds polls none hall]
    · rintro ⟨hall, hl⟩
      have hall2 : ∀ y ∈ polls, ∃ u, classifyDs y = .cont u :=
        fun y hy => (classifyDs_cont_iff y).mpr (hall y hy)
      exact ⟨hall2, by rw [hl, foldl_contUpd_ds polls none hall2]⟩

/-- C10: dataset terminal detection is a case-sensitive exact comparison
(a found state not exactly one of COMPLETED/FAILED/ERROR/CANCELLED —
e.g. lowercase "completed" — polls until timeout), whereas the experiment
loop uppercases the status first, so any case variant of COMPLETED
returns and any case variant of FAILED/ERROR/CANCELLED raises. -/
theorem terminal_detection_case_sensitivity :
    (∀ s : String, s ∉ (["COMPLETED", "FAILED", "ERROR", "CANCELLED"] : List String) →
      ∀ n : Nat, 0 < n →
        dataset_wait (List.replicate n (some (some s))) = .timedOut (some s)) ∧
    (∀ (s : String) (rest : List (Option String)), upperStr s = "COMPLETED" →
      experiment_wait (some s :: rest) = .completed (some s)) ∧
    (∀ (s : String) (rest : List (Option String)),
      (["FAILED", "ERROR", "CANCELLED"] : List String).contains (upperStr s) = true →
      experiment_wait (some s :: rest) = .failed s) := by
  refine ⟨?_, ?_, ?_⟩
  · intro s hs n hn
    have hcls : classifyDs (some (some s)) = .cont (some (some s)) := by
      have h1 : ¬ s = "COMPLETED" := fun h => hs (by rw [h]; simp)
      have h2 : ¬ (["FAILED", "ERROR", "CANCELLED"] : List String).contains s = true := by
        intro hmem
        have hmem2 : s ∈ (["FAILED", "ERROR", "CANCELLED"] : List String) :=
          List.mem_of_elem_eq_true hmem
        simp only [List.mem_cons, List.mem_singleton, List.not_mem_nil, or_false] at hmem2
        rcases hmem2 with h | h | h <;> exact hs (by rw [h]; simp)
      simp only [classifyDs, if_neg h1, if_neg h2]
    have haux : ∀ m : Nat,
        pollLoop classifyDs (List.replicate m (some (some s))) (some s)
          = .timedOut (some s) := by
      intro m
      induction m with
      | zero => rfl
      | succ k ihk =>
        rw [List.replicate_succ]
        simp only [pollLoop, hcls]
        exact ihk
    obtain ⟨m, rfl⟩ := Nat.exists_eq_succ_of_ne_zero (Nat.pos_iff_ne_zero.mp hn)
    rw [dataset_wait, List.replicate_succ]
    simp only [pollLoop, hcls]
    exact haux m
  · intro s rest hupper
    have hne : ¬ s = "" := by
      intro h
      rw [h] at hupper
      exact absurd hupper (by decide)
    rw [experiment_wait]
    simp only [pollLoop, classifyExp, if_neg hne, if_pos hupper]
  · intro s rest hmem
    have hne : ¬ s = "" := by
      intro h
      rw [h] at hmem
      exact absurd hmem (by decide)
    have hnc : ¬ upperStr s = "COMPLETED" := by
      intro h
      rw [h] at hmem
      exact absurd hmem (by decide)
    rw [experiment_wait]
    simp only [pollLoop, classifyExp, if_neg hne, if_neg hnc, if_pos hmem]

/-- C10 witness: lowercase "completed" polls a dataset to timeout but
completes an experiment; a case variant of FAILED fails an experiment. -/
theorem terminal_detection_case_sensitivity_witness :
    dataset_wait (List.replicate 2 (some (some "completed"))) = .timedOut (some "completed") ∧
    experiment_wait [some "completed"] = .completed (some "completed") ∧
    experiment_wait [some "Failed"] = .failed "Failed" :=
  ⟨terminal_detection_case_sensitivity.1 "completed" (by decide) 2 (by decide),
   terminal_detection_case_sensitivity.2.1 "completed" [] (by decide),
   terminal_detection_case_sensitivity.2.2 "Failed" [] (by decide)⟩

theorem filter_notmem_cons (vs : List String) (v : String) (seen : List String) :
    (vs.filter (fun x => decide (x ∉ seen))).filter (fun x => decide (x ≠ v))
      = vs.filter (fun x => decide (x ∉ v :: seen)) := by
  rw [List.filter_filter]
  apply List.filter_congr
  intro x hx
  by_cases h1 : x = v <;> by_cases h2 : x ∈ seen <;> simp [h1, h2, List.mem_cons]

theorem ordered_unique_eq_first_seen (vs : List String) :
    ∀ seen : List String,
      ordered_unique vs seen = first_seen_nonempty (vs.filter (fun x => decide (x ∉ seen))) := by
  induction vs with
  | nil =>
    intro seen
    simp [ordered_unique, first_seen_nonempty]
  | cons v vs ih =>
    intro seen
    by_cases hv : v = ""
    · subst hv
      have hlhs : ordered_unique ("" :: vs) seen = ordered_unique vs seen := by
        simp [ordered_unique]
      rw [hlhs]
      by_cases hm : "" ∈ seen
      · rw [List.filter_cons_of_neg (by simpa using hm)]
        exact ih seen
      · rw [List.filter_cons_of_pos (by simpa using hm)]
        rw [first_seen_nonempty, if_pos rfl]
        exact ih seen
    · by_cases hm : v ∈ seen
      · have hlhs : ordered_unique (v :: vs) seen = ordered_unique vs seen := by
          simp [ordered_unique, hm]
        rw [hlhs, List.filter_cons_of_neg (by simpa using hm)]
        exact ih seen
      · have hlhs : ordered_unique (v :: vs) seen = v :: ordered_unique vs (v :: seen) := by
          simp [ordered_unique, hv, hm]
        rw [hlhs, List.filter_cons_of_pos (by simpa using hm)]
        rw [first_seen_nonempty, if_neg hv, filter_notmem_cons]
        rw [ih (v :: seen)]

/-- C7 counterexample: over a "group" column whose values are `["", "a"]`
the code yields only `[["a","c"]]`, while the claim's "every distinct
value of the column in first-seen order excluding the control" would also
include the empty value: the code additionally ignores empty values. -/
theorem pairwise_vs_control_counterexample :
    to_columns_col [["group"], [""], ["a"]] "group" = some ["", "a"] ∧
    pairwise_vs_control [["group"], [""], ["a"]] "group" "c" = .ok [["a", "c"]] ∧
    claimed_pairwise ["", "a"] "c" = [["", "c"], ["a", "c"]] ∧
    ([["a", "c"]] : List (List String)) ≠ [["", "c"], ["a", "c"]] := by
  refine ⟨by decide, by rfl, ?_, by decide⟩
  simp [claimed_pairwise, first_seen_distinct]

/-- C7 (amended): for every table with a column named `c` and control
`v`, `pairwise_vs_control` returns, for each distinct NON-EMPTY value of
the column in first-seen order excluding `v`, the pair `[value, v]`
(empty cells are ignored); over values `[a,a,b,c]` with control `c` it
returns exactly `[[a,c],[b,c]]`. -/
theorem pairwise_vs_control_nonempty_distinct (data : List (List String))
    (column control : String) (vals : List String)
    (h : to_columns_col data column = some vals) :
    pairwise_vs_control data column control =
      .ok (((first_seen_nonempty vals).filter (fun v => v ≠ control)).map
        (fun v => [v, control])) := by
  simp only [pairwise_vs_control, h]
  have hou : ordered_unique vals [] = first_seen_nonempty vals := by
    have h2 := ordered_unique_eq_first_seen vals []
    simpa using h2
  rw [hou]

/-- C7 witness: the spec's own example, `[a,a,b,c]` against control `c`,
yields exactly `[[a,c],[b,c]]`. -/
theorem pairwise_vs_control_nonempty_distinct_witness :
    pairwise_vs_control [["group"], ["a"], ["a"], ["b"], ["c"]] "group" "c"
      = .ok [["a", "c"], ["b", "c"]] := by
  have h := pairwise_vs_control_nonempty_distinct [["group"], ["a"], ["a"], ["b"], ["c"]]
    "group" "c" ["a", "a", "b", "c"] (by decide)
  rw [h]
  simp [first_seen_nonempty]

theorem multipart_go_map_part_number (n b r : Nat) (ps : List UploadPart) (data : List Nat) :
    multipart_go n b r ps data = num_go n b r (ps.map UploadPart.part_number) data := by
  induction ps generalizing data with
  | nil => rfl
  | cons p ps ih =>
    simp only [multipart_go, num_go, part_chunk_size, List.map_cons]
    rw [ih]

theorem num_go_map_fst (n b r : Nat) (ks : List Nat) (data : List Nat) :
    (num_go n b r ks data).map Prod.fst = ks := by
  induction ks generalizing data with
  | nil => rfl
  | cons k ks ih =>
    simp only [num_go, List.map_cons]
    rw [ih]

theorem num_go_lengths (n b r : Nat) (ks : List Nat) :
    ∀ data : List Nat, (ks.map (part_chunk_size n b r)).sum ≤ data.length →
      (num_go n b r ks data).map (fun pr => pr.2.length) = ks.map (part_chunk_size n b r) := by
  induction ks with
  | nil => intro data _; rfl
  | cons k ks ih =>
    intro data h
    simp only [List.map_cons, List.sum_cons] at h
    simp only [num_go, List.map_cons]
    congr 1
    · rw [List.length_take]
      exact min_eq_left (by omega)
    · refine ih (data.drop (part_chunk_size n b r k)) ?_
      rw [List.length_drop]
      omega

theorem num_go_join (n b r : Nat) (ks : List Nat) :
    ∀ data : List Nat, data.length = (ks.map (part_chunk_size n b r)).sum →
      ((num_go n b r ks data).map Prod.snd).flatten = data := by
  induction ks with
  | nil =>
    intro data h
    simp only [List.map_nil, List.sum_nil] at h
    rw [List.length_eq_zero] at h
    subst h
    rfl
  | cons k ks ih =>
    intro data h
    simp only [List.map_cons, List.sum_cons] at h
    simp only [num_go, List.map_cons, List.flatten_cons]
    have hlen : (data.drop (part_chunk_size n b r k)).length
        = (ks.map (part_chunk_size n b r)).sum := by
      rw [List.length_drop]
      omega
    rw [ih _ hlen]
    exact List.take_append_drop _ data

theorem map_pcs_range' (n b r : Nat) (hn : 1 ≤ n) :
    (List.range' 1 n).map (part_chunk_size n b r)
      = List.replicate (n - 1) b ++ [b + r] := by
  obtain ⟨k, rfl⟩ := Nat.exists_eq_succ_of_ne_zero (by omega : n ≠ 0)
  rw [List.range'_concat, List.map_append]
  congr 1
  · have hk : k + 1 - 1 = k := rfl
    rw [hk]
    refine List.eq_replicate_iff.mpr ⟨by simp, ?_⟩
    intro x hx
    obtain ⟨j, hj, rfl⟩ := List.mem_map.mp hx
    have hjlt : j < 1 + k := (List.mem_range'_1.mp hj).2
    rw [part_chunk_size, if_neg (by omega)]
  · simp only [List.map_cons, List.map_nil, part_chunk_size]
    rw [if_pos (by omega)]

/-- C2: for a multipart upload of a file of size `S > 0` over `n >= 1`
part descriptors numbered `1..n` in any order: the chunks are PUT in
ascending part-number order; the first `n-1` chunks each have size
`S / n`; the chunk for part `n` has size `S - (S / n) * (n - 1)`; the
chunk sizes sum to `S` (indeed the chunks concatenate back to the file). -/
theorem upload_multipart_file_chunks (parts : List UploadPart) (content : List Nat)
    (hn : 1 ≤ parts.length) (hS : 0 < content.length)
    (hperm : List.Perm (parts.map UploadPart.part_number) (List.range' 1 parts.length)) :
    (upload_multipart_file parts content).map Prod.fst = List.range' 1 parts.length ∧
    (upload_multipart_file parts content).map (fun pr => pr.2.length)
      = List.replicate (parts.length - 1) (content.length / parts.length)
        ++ [content.length - (content.length / parts.length) * (parts.length - 1)] ∧
    ((upload_multipart_file parts content).map (fun pr => pr.2.length)).sum
      = content.length ∧
    ((upload_multipart_file parts content).map Prod.snd).flatten = content := by
  have hperm2 : List.Perm ((List.insertionSort partLE parts).map UploadPart.part_number)
      (List.range' 1 parts.length) :=
    ((List.perm_insertionSort partLE parts).map UploadPart.part_number).trans hperm
  have hsorted1 : List.Sorted (fun a b : Nat => a ≤ b)
      ((List.insertionSort partLE parts).map UploadPart.part_number) :=
    List.Pairwise.map UploadPart.part_number (fun a b hab => hab)
      (List.sorted_insertionSort partLE parts)
  have hsorted2 : List.Sorted (fun a b : Nat => a ≤ b) (List.range' 1 parts.length) :=
    (List.pairwise_lt_range' 1 parts.length).imp fun h => Nat.le_of_lt h
  have hsorted : (List.insertionSort partLE parts).map UploadPart.part_number
      = List.range' 1 parts.length :=
    List.eq_of_perm_of_sorted hperm2 hsorted1 hsorted2
  have hrw : upload_multipart_file parts content
      = num_go parts.length (content.length / parts.length) (content.length % parts.length)
          (List.range' 1 parts.length) content := by
    rw [upload_multipart_file, multipart_go_map_part_number, hsorted]
  obtain ⟨k, hk⟩ := Nat.exists_eq_succ_of_ne_zero (by omega : parts.length ≠ 0)
  have hmap := map_pcs_range' parts.length (content.length / parts.length)
    (content.length % parts.length) hn
  have hsum : ((List.range' 1 parts.length).map
      (part_chunk_size parts.length (content.length / parts.length)
        (content.length % parts.length))).sum = content.length := by
    rw [hmap, List.sum_append, List.sum_replicate, List.sum_cons, List.sum_nil, smul_eq_mul, hk]
    simp only [Nat.succ_sub_one]
    have hdm2 := Nat.div_add_mod content.length (k + 1)
    calc k * (content.length / (k + 1))
          + (content.length / (k + 1) + content.length % (k + 1) + 0)
        = (k + 1) * (content.length / (k + 1)) + content.length % (k + 1) := by ring
      _ = content.length := hdm2
  refine ⟨?_, ?_, ?_, ?_⟩
  · rw [hrw]
    exact num_go_map_fst _ _ _ _ _
  · rw [hrw, num_go_lengths _ _ _ _ content (le_of_eq hsum), hmap, hk]
    simp only [Nat.succ_sub_one]
    congr 1
    have hdm2 := Nat.div_add_mod content.length (k + 1)
    have hfinal : content.length - content.length / (k + 1) * k
        = content.length / (k + 1) + content.length % (k + 1) := by
      refine Nat.sub_eq_of_eq_add ?_
      calc content.length
          = (k + 1) * (content.length / (k + 1)) + content.length % (k + 1) := hdm2.symm
        _ = (content.length / (k + 1) + content.length % (k + 1))
            + content.length / (k + 1) * k := by ring
    rw [hfinal]
  · rw [hrw, num_go_lengths _ _ _ _ content (le_of_eq hsum), hsum]
  · rw [hrw]
    exact num_go_join _ _ _ _ content hsum.symm

/-- C2 witness: two parts given in descending order over a 5-byte file
are uploaded as part 1 then part 2, with chunk sizes 2 and 3 summing to
5 and concatenating back to the file. -/
theorem upload_multipart_file_chunks_witness :
    (upload_multipart_file [{ part_number := 2, url := "u2" }, { part_number := 1, url := "u1" }]
        [10, 20, 30, 40, 50]).map Prod.fst = List.range' 1 2 ∧
    (upload_multipart_file [{ part_number := 2, url := "u2" }, { part_number := 1, url := "u1" }]
        [10, 20, 30, 40, 50]).map (fun pr => pr.2.length)
      = List.replicate 1 2 ++ [5 - 2 * 1] ∧
    ((upload_multipart_file [{ part_number := 2, url := "u2" }, { part_number := 1, url := "u1" }]
        [10, 20, 30, 40, 50]).map (fun pr => pr.2.length)).sum = 5 ∧
    ((upload_multipart_file [{ part_number := 2, url := "u2" }, { part_number := 1, url := "u1" }]
        [10, 20, 30, 40, 50]).map Prod.snd).flatten = [10, 20, 30, 40, 50] :=
  upload_multipart_file_chunks
    [{ part_number := 2, url := "u2" }, { part_number := 1, url := "u1" }]
    [10, 20, 30, 40, 50] (by decide) (by decide) (by decide)

/-- C8 witness: normalizing a synonym-headed table produces a table that
renormalizes to itself. -/
theorem normalize_rows_idempotent_witness :
    normalize_rows [["filename", "sample_name", "condition"], ["f1", "s1", "c1"]]
      = .ok [["filename", "sample_name", "condition"], ["f1", "s1", "c1"]] :=
  normalize_rows_idempotent [["File", "Group", "Sample"], ["f1", "c1", "s1"]]
    [["filename", "sample_name", "condition"], ["f1", "s1", "c1"]] (by rfl)
